import Mathlib

/-!
Shallow embedding of the threaded Game of Life implementation in
`src/GoL.c` (toroidal Conway's Game of Life with a fixed pool of worker
threads and a reusable condition-variable barrier), together with proofs
about the specification claims.

The concurrency structure of the program is lock-step: every worker
computes its tile into the next buffer, then all workers rendezvous at
the barrier, where the last arriver performs the global bookkeeping
(extinction check / buffer swap / snapshot emission).  The embedding
models one generation as the order-independent application of all tile
writes followed by the barrier arrivals, with all global variables of
the C program carried in an explicit state record.
-/

/-- Cell value `LIVE` (GoL.c line 58). -/
def LIVE : Int := 1

/-- Cell value `DEAD` (GoL.c line 59). -/
def DEAD : Int := 0

/-- A world buffer: cell values indexed by (row, col).  The C program uses a
flat `int` array accessed as `wp[i*n + j]`; every access in the core keeps
`j < n`, so distinct coordinate pairs use distinct array slots and the
two-dimensional function view is faithful. -/
def Grid : Type := Nat → Nat → Int

/-- The negative-safe modulo of `Count_nbhrs` (GoL.c lines 323-324):
`(x + m) % m` evaluated on C ints, used with an index `x ≥ -1`. -/
def wrap (x : Int) (m : Nat) : Nat := ((x + m) % m).toNat

/-- Embeds `Count_nbhrs` (GoL.c lines 317-330): sum the cell values of the
3×3 toroidal neighborhood of (i, j) and subtract the center cell.  The C
loops run `i1` from `i-1` to `i+1` and `j1` from `j-1` to `j+1`, both of
constant trip count 3; they are unrolled here into the nine summands, in
the loops' iteration order. -/
def Count_nbhrs (wp : Grid) (m n i j : Nat) : Int :=
  wp (wrap ((i : Int) - 1) m) (wrap ((j : Int) - 1) n)
  + wp (wrap ((i : Int) - 1) m) (wrap ((j : Int)) n)
  + wp (wrap ((i : Int) - 1) m) (wrap ((j : Int) + 1) n)
  + wp (wrap ((i : Int)) m) (wrap ((j : Int) - 1) n)
  + wp (wrap ((i : Int)) m) (wrap ((j : Int)) n)
  + wp (wrap ((i : Int)) m) (wrap ((j : Int) + 1) n)
  + wp (wrap ((i : Int) + 1) m) (wrap ((j : Int) - 1) n)
  + wp (wrap ((i : Int) + 1) m) (wrap ((j : Int)) n)
  + wp (wrap ((i : Int) + 1) m) (wrap ((j : Int) + 1) n)
  - wp i j

/-- The run configuration read from the command line (GoL.c lines 95-99):
`r`/`s` are the numbers of rows/columns of threads, `m`/`n` the world
dimensions, `max_gens` the generation cap. -/
structure Config where
  r : Nat
  s : Nat
  m : Nat
  n : Nat
  max_gens : Nat

/-- `thread_count = r*s` (GoL.c line 101). -/
def thread_count (c : Config) : Nat := c.r * c.s

/-- `my_first_row` of worker `w` (GoL.c line 265). -/
def my_first_row (c : Config) (w : Nat) : Nat := (w / c.s) * (c.m / c.r)

/-- `my_last_row` of worker `w` (GoL.c line 266). -/
def my_last_row (c : Config) (w : Nat) : Nat := my_first_row c w + c.m / c.r

/-- `my_first_col` of worker `w` (GoL.c line 267). -/
def my_first_col (c : Config) (w : Nat) : Nat := (w % c.s) * (c.n / c.s)

/-- `my_last_col` of worker `w` (GoL.c line 268). -/
def my_last_col (c : Config) (w : Nat) : Nat := my_first_col c w + c.n / c.s

/-- Cell (i, j) lies in the tile iterated by worker `w`'s loops
(GoL.c lines 271-272). -/
def inTile (c : Config) (w i j : Nat) : Prop :=
  my_first_row c w ≤ i ∧ i < my_last_row c w ∧
  my_first_col c w ≤ j ∧ j < my_last_col c w

instance (c : Config) (w i j : Nat) : Decidable (inTile c w i j) :=
  inferInstanceAs (Decidable (my_first_row c w ≤ i ∧ i < my_last_row c w ∧
    my_first_col c w ≤ j ∧ j < my_last_col c w))

/-- The update rule applied per cell by `Play_life` (GoL.c lines 279-285):
`count < 2 || count > 3` gives DEAD, `count == 2` copies the current cell,
otherwise (`count == 3`) gives LIVE. -/
def life_rule (cur count : Int) : Int :=
  if count < 2 ∨ 3 < count then DEAD
  else if count = 2 then cur
  else LIVE

/-- The next-buffer contents after worker `w` has run its double loop
(GoL.c lines 271-289): cells of `w`'s tile hold the rule output computed
from the current buffer, all other cells are untouched. -/
def tileWrite (c : Config) (w : Nat) (wp twp : Grid) : Grid :=
  fun i j =>
    if inTile c w i j then life_rule (wp i j) (Count_nbhrs wp c.m c.n i j)
    else twp i j

/-- The number of `live_count++` increments worker `w` performs in one
generation (GoL.c lines 286-288): one per tile cell whose just-written
value is LIVE. -/
def tileLive (c : Config) (w : Nat) (wp : Grid) : Nat :=
  ((List.range (c.m / c.r)).map (fun a =>
    ((List.range (c.n / c.s)).map (fun b =>
      if life_rule (wp (my_first_row c w + a) (my_first_col c w + b))
          (Count_nbhrs wp c.m c.n (my_first_row c w + a) (my_first_col c w + b))
          = LIVE
      then 1 else 0)).sum)).sum

/-- The global mutable state of the program (GoL.c lines 64-74): the two
world buffers `wp`/`twp`, the generation counter, the live-cell
accumulator, the termination flag, the barrier arrival counter, and the
trace of snapshots printed by `Print_world` (generation number together
with the grid that is printed). -/
@[ext]
structure SimState where
  wp : Grid
  twp : Grid
  curr_gen : Nat
  live_count : Nat
  break_flag : Nat
  barrier_count : Nat
  output : List (Nat × Grid)

/-- Embeds `Pointer_swap` (GoL.c lines 362-372): swap the buffer roles,
increment the generation counter, and print the new current world. -/
def Pointer_swap (st : SimState) : SimState :=
  { st with
    wp := st.twp
    twp := st.wp
    curr_gen := st.curr_gen + 1
    output := st.output ++ [(st.curr_gen + 1, st.twp)] }

/-- Embeds one arrival at `Barrier` (GoL.c lines 337-353).  The last
arriver (arrival counter reaching `thread_count`) runs the release
action: on extinction it sets `break_flag` without swapping, otherwise it
calls `Pointer_swap`; in both cases it resets the arrival counter and
`live_count` to 0.  Earlier arrivers only register their arrival and
block. -/
def Barrier (c : Config) (st : SimState) : SimState :=
  let bc := st.barrier_count + 1
  if bc = thread_count c then
    if st.live_count = 0 then
      { st with break_flag := 1, barrier_count := 0, live_count := 0 }
    else
      let st2 := Pointer_swap st
      { st2 with barrier_count := 0, live_count := 0 }
  else
    { st with barrier_count := bc }

/-- The state change contributed by worker `w`'s compute loop in one
generation (GoL.c lines 271-290): its tile of the next buffer is written
and `live_count` is incremented once per live cell written. -/
def workerCompute (c : Config) (w : Nat) (st : SimState) : SimState :=
  { st with
    twp := tileWrite c w st.wp st.twp
    live_count := st.live_count + tileLive c w st.wp }

/-- All workers' compute loops of one generation.  The tiles are disjoint
and every worker only reads the (unchanged) current buffer, so the
sequential fold is faithful to the concurrent execution. -/
def computePhase (c : Config) (st : SimState) : SimState :=
  (List.range (thread_count c)).foldl (fun s w => workerCompute c w s) st

/-- All `thread_count` arrivals at the barrier for one generation. -/
def barrierPhase (c : Config) (st : SimState) : SimState :=
  (List.range (thread_count c)).foldl (fun s _ => Barrier c s) st

/-- One full generation: every worker computes its tile, then all workers
rendezvous at the barrier. -/
def genRound (c : Config) (st : SimState) : SimState :=
  barrierPhase c (computePhase c st)

/-- The worker loop `while (curr_gen < max_gens) { compute; Barrier(); if
(break_flag == 1) break; }` (GoL.c lines 270-296), in lock-step form.  The
fuel argument bounds the number of iterations; each non-breaking round
increments `curr_gen`, so `max_gens` fuel suffices from a fresh start. -/
def runAux (c : Config) : Nat → SimState → SimState
  | 0, st => st
  | fuel + 1, st =>
    if st.curr_gen < c.max_gens then
      let st2 := genRound c st
      if st2.break_flag = 1 then st2 else runAux c fuel st2
    else st

/-- A whole run from an initial state (threads created at GoL.c line 124
and joined at line 129). -/
def run (c : Config) (st : SimState) : SimState := runAux c c.max_gens st

/-- The 8 offset pairs of the Moore neighborhood: row offsets -1, 0, +1 and
column offsets -1, 0, +1 with the center (0, 0) excluded. -/
def nbhrOffsets : List (Int × Int) :=
  [(-1, -1), (-1, 0), (-1, 1), (0, -1), (0, 1), (1, -1), (1, 0), (1, 1)]

/-- The 8 toroidal neighbors of cell (i, j), with wraparound on both axes by
the same negative-safe modulo the program uses. -/
def neighborList (m n i j : Nat) : List (Nat × Nat) :=
  nbhrOffsets.map (fun d => (wrap ((i : Int) + d.1) m, wrap ((j : Int) + d.2) n))

/-- Pointwise update of a grid at one cell. -/
def updateCell (g : Grid) (i j : Nat) (v : Int) : Grid :=
  fun a b => if a = i ∧ b = j then v else g a b

/-- Number of LIVE cells of the m×n world held in a grid. -/
def countLive (m n : Nat) (g : Grid) : Nat :=
  ((List.range m).map (fun i =>
    ((List.range n).map (fun j => if g i j = LIVE then 1 else 0)).sum)).sum

/-- The cell of the k-th snapshot of a state's output trace, if any. -/
def snapAt (st : SimState) (k i j : Nat) : Option Int :=
  (st.output[k]?).map (fun p => p.2 i j)

/-- Embeds the startup validation of `main` (GoL.c lines 93-101): the only
check before the worker threads are created is the argument count
(`if (argc != 7) Usage(argv[0]);`, where `Usage` exits); the parsed values
`r`, `s`, `m`, `n` are not validated. -/
def startupRejects (argc : Nat) (_r _s _m _n : Int) : Bool := argc != 7

/-- Modelled from the spec (§7 error taxonomy): a configuration error is an
invalid thread-grid shape (`r*s ≤ 0`), a non-positive dimension, or a grid
too small for toroidal wraparound (`m < 3` or `n < 3`). -/
def isConfigErrorSpec (r s m n : Int) : Bool :=
  if r * s ≤ 0 then true
  else if m ≤ 0 ∨ n ≤ 0 then true
  else if m < 3 ∨ n < 3 then true
  else false

/-- Embeds the value `main` returns to its caller (GoL.c line 139):
`return 0;` regardless of whether the run ended by extinction or by
reaching the generation cap. -/
def mainReturn (_c : Config) (_st : SimState) : Int := 0

/-- The all-dead world. -/
def deadGrid : Grid := fun _ _ => 0

/-- A 2×2 block of live cells in the top-left corner; a still life on any
toroidal world with m, n ≥ 3. -/
def blockGrid : Grid := fun i j => if i < 2 ∧ j < 2 then 1 else 0

/-- A world whose column 0 is fully alive; on a 3×3 torus the rule then
turns cell (2,1) alive in the next generation. -/
def colGrid : Grid := fun _ j => if j = 0 then 1 else 0

/-- Fresh program state before the threads start: `wp` holds generation 0,
the second buffer is just-allocated (its contents never read before being
written only when the whole grid is covered), and all counters are 0. -/
def initState (g : Grid) : SimState :=
  { wp := g
    twp := deadGrid
    curr_gen := 0
    live_count := 0
    break_flag := 0
    barrier_count := 0
    output := [] }

/-! ### Arithmetic facts about the negative-safe modulo -/

lemma wrap_lt (x : Int) (m : Nat) (h : 0 < m) : wrap x m < m := by
  have hm : ((m : Int)) ≠ 0 := by omega
  have h1 := Int.emod_nonneg (x + m) hm
  have h2 := Int.emod_lt_of_pos (x + m) (show (0 : Int) < (m : Int) by omega)
  unfold wrap
  omega

lemma wrap_self (i m : Nat) (h : i < m) : wrap (i : Int) m = i := by
  unfold wrap
  have h1 : ((i : Int) + m) % m = i := by
    have e : ((i : Int) + m) = i + m * 1 := by ring
    rw [e, Int.add_mul_emod_self_left]
    exact Int.emod_eq_of_lt (by omega) (by exact_mod_cast h)
  omega





/-! ### Count_nbhrs as a sum over the 8 toroidal neighbors -/

lemma Count_nbhrs_eq (g : Grid) (m n i j : Nat) (hi : i < m) (hj : j < n) :
    Count_nbhrs g m n i j
      = ((neighborList m n i j).map (fun p => g p.1 p.2)).sum := by
  have e3 : ∀ x : Int, x + -1 = x - 1 := fun x => by ring
  simp only [Count_nbhrs, neighborList, nbhrOffsets,
    List.map_cons, List.map_nil, List.sum_cons, List.sum_nil, add_zero, e3]
  rw [wrap_self i m hi, wrap_self j n hj]
  ring

lemma neighborList_length (m n i j : Nat) : (neighborList m n i j).length = 8 := rfl

lemma neighborList_mem_range (m n i j : Nat) (hm : 0 < m) (hn : 0 < n) :
    ∀ x y, (x, y) ∈ neighborList m n i j → x < m ∧ y < n := by
  intro x y hp
  obtain ⟨d, hd, he⟩ := List.mem_map.mp hp
  rw [Prod.mk.injEq] at he
  rw [← he.1, ← he.2]
  exact ⟨wrap_lt _ m hm, wrap_lt _ n hn⟩

lemma wrap_off_inj (m i : Nat) (a b : Int) (hm : 3 ≤ m) (_hi : i < m)
    (ha1 : -1 ≤ a) (ha2 : a ≤ 1) (hb1 : -1 ≤ b) (hb2 : b ≤ 1)
    (h : wrap ((i : Int) + a) m = wrap ((i : Int) + b) m) : a = b := by
  have hm0 : ((m : Int)) ≠ 0 := by omega
  have e1 := Int.emod_nonneg ((i : Int) + a + m) hm0
  have e2 := Int.emod_nonneg ((i : Int) + b + m) hm0
  have he : ((i : Int) + a + m) % m = ((i : Int) + b + m) % m := by
    unfold wrap at h
    omega
  have hdvd : (m : Int) ∣ b - a := by
    have h2 : (m : Int) ∣ ((i : Int) + b + m) - ((i : Int) + a + m) :=
      Int.ModEq.dvd he
    have e3 : ((i : Int) + b + m) - ((i : Int) + a + m) = b - a := by ring
    rwa [e3] at h2
  obtain ⟨k, hk⟩ := hdvd
  have hm3 : (3 : Int) ≤ m := by exact_mod_cast hm
  have hk0 : k = 0 := by
    rcases lt_trichotomy k 0 with hlt | heq | hgt
    · have h3 : k ≤ -1 := by omega
      have h4 : (m : Int) * k ≤ (m : Int) * -1 :=
        mul_le_mul_of_nonneg_left h3 (by omega)
      have h5 : (m : Int) * -1 = -(m : Int) := by ring
      linarith
    · exact heq
    · have h3 : (1 : Int) ≤ k := by omega
      have h4 : (m : Int) * 1 ≤ (m : Int) * k :=
        mul_le_mul_of_nonneg_left h3 (by omega)
      have h5 : (m : Int) * 1 = (m : Int) := by ring
      linarith
  subst hk0
  have h6 : (m : Int) * 0 = 0 := by ring
  omega

lemma nbhrOffsets_bounds :
    ∀ d ∈ nbhrOffsets, (-1 ≤ d.1 ∧ d.1 ≤ 1) ∧ (-1 ≤ d.2 ∧ d.2 ≤ 1) := by
  decide

lemma neighborList_nodup (m n i j : Nat) (hm : 3 ≤ m) (hn : 3 ≤ n)
    (hi : i < m) (hj : j < n) : (neighborList m n i j).Nodup := by
  refine List.Nodup.map_on ?_ (by decide : nbhrOffsets.Nodup)
  intro d hd d' hd' he
  rw [Prod.mk.injEq] at he
  have hb := nbhrOffsets_bounds d hd
  have hb' := nbhrOffsets_bounds d' hd'
  have e1 : d.1 = d'.1 :=
    wrap_off_inj m i d.1 d'.1 hm hi hb.1.1 hb.1.2 hb'.1.1 hb'.1.2 he.1
  have e2 : d.2 = d'.2 :=
    wrap_off_inj n j d.2 d'.2 hn hj hb.2.1 hb.2.2 hb'.2.1 hb'.2.2 he.2
  exact Prod.ext_iff.mpr ⟨e1, e2⟩

lemma self_not_mem_neighborList (m n i j : Nat) (hm : 3 ≤ m) (hn : 3 ≤ n)
    (hi : i < m) (hj : j < n) : (i, j) ∉ neighborList m n i j := by
  intro hmem
  obtain ⟨d, hd, he⟩ := List.mem_map.mp hmem
  rw [Prod.mk.injEq] at he
  have hb := nbhrOffsets_bounds d hd
  have hz0 : wrap ((i : Int) + 0) m = i := by
    rw [add_zero]
    exact wrap_self i m hi
  have hz1 : wrap ((j : Int) + 0) n = j := by
    rw [add_zero]
    exact wrap_self j n hj
  have e1 : d.1 = 0 :=
    wrap_off_inj m i d.1 0 hm hi hb.1.1 hb.1.2 (by omega) (by omega)
      (he.1.trans hz0.symm)
  have e2 : d.2 = 0 :=
    wrap_off_inj n j d.2 0 hn hj hb.2.1 hb.2.2 (by omega) (by omega)
      (he.2.trans hz1.symm)
  have hd0 : d = ((0 : Int), (0 : Int)) := Prod.ext_iff.mpr ⟨e1, e2⟩
  rw [hd0] at hd
  exact (by decide : ((0 : Int), (0 : Int)) ∉ nbhrOffsets) hd

lemma sum_map_eq_filter_length (g : Grid) (l : List (Nat × Nat))
    (hb : ∀ p ∈ l, g p.1 p.2 = DEAD ∨ g p.1 p.2 = LIVE) :
    (l.map (fun p => g p.1 p.2)).sum
      = ((l.filter (fun p => g p.1 p.2 == LIVE)).length : Int) := by
  induction l with
  | nil => simp
  | cons hd tl IH =>
    have hp := hb hd (List.mem_cons_self hd tl)
    have ih' := IH (fun q hq => hb q (List.mem_cons_of_mem hd hq))
    rcases hp with h | h
    · have hf : List.filter (fun q => g q.1 q.2 == LIVE) (hd :: tl)
          = List.filter (fun q => g q.1 q.2 == LIVE) tl := by
        simp [List.filter_cons, h, DEAD, LIVE]
      rw [List.map_cons, List.sum_cons, hf, ih', h, DEAD]
      ring
    · have hf : List.filter (fun q => g q.1 q.2 == LIVE) (hd :: tl)
          = hd :: List.filter (fun q => g q.1 q.2 == LIVE) tl := by
        simp [List.filter_cons, h, DEAD, LIVE]
      rw [List.map_cons, List.sum_cons, hf, ih', h, List.length_cons, LIVE]
      push_cast
      ring

lemma sum_map_update (ψ φ : Nat × Nat → Int) (l : List (Nat × Nat)) (p : Nat × Nat)
    (hnd : l.Nodup) (hp : p ∈ l) (hagree : ∀ x ∈ l, x ≠ p → ψ x = φ x) :
    (l.map ψ).sum = (l.map φ).sum + (ψ p - φ p) := by
  induction l with
  | nil => cases hp
  | cons q l ih =>
    rw [List.nodup_cons] at hnd
    rcases List.mem_cons.mp hp with rfl | hpl
    · have hag : ∀ x ∈ l, ψ x = φ x := fun x hx =>
        hagree x (List.mem_cons_of_mem _ hx) (fun he => hnd.1 (he ▸ hx))
      have hmap : l.map ψ = l.map φ := List.map_congr_left hag
      rw [List.map_cons, List.map_cons, List.sum_cons, List.sum_cons, hmap]
      ring
    · have hqp : q ≠ p := fun he => hnd.1 (he ▸ hpl)
      have hψq := hagree q (List.mem_cons_self q l) hqp
      have hrec := ih hnd.2 hpl (fun x hx hne => hagree x (List.mem_cons_of_mem _ hx) hne)
      rw [List.map_cons, List.map_cons, List.sum_cons, List.sum_cons, hrec, hψq]
      ring

lemma Count_nbhrs_update (g : Grid) (m n i j i' j' : Nat) (v : Int)
    (hm : 3 ≤ m) (hn : 3 ≤ n) (hi' : i' < m) (hj' : j' < n)
    (hmem : (i, j) ∈ neighborList m n i' j') :
    Count_nbhrs (updateCell g i j v) m n i' j'
      = Count_nbhrs g m n i' j' + (v - g i j) := by
  rw [Count_nbhrs_eq _ m n i' j' hi' hj', Count_nbhrs_eq g m n i' j' hi' hj']
  have hnd := neighborList_nodup m n i' j' hm hn hi' hj'
  have hagree : ∀ x ∈ neighborList m n i' j', x ≠ (i, j) →
      (fun p : Nat × Nat => updateCell g i j v p.1 p.2) x
        = (fun p : Nat × Nat => g p.1 p.2) x := by
    intro x hx hne
    obtain ⟨a, b⟩ := x
    have hne2 : ¬(a = i ∧ b = j) := by
      intro hab
      exact hne (by rw [hab.1, hab.2])
    simp only [updateCell]
    rw [if_neg hne2]
  have hsum := sum_map_update (fun p : Nat × Nat => updateCell g i j v p.1 p.2)
    (fun p : Nat × Nat => g p.1 p.2) (neighborList m n i' j') (i, j) hnd hmem hagree
  rw [hsum]
  have hv : updateCell g i j v i j = v := by
    simp [updateCell]
  simp only [hv]

/-! ### The compute phase as a pointwise description -/

lemma computeFold_wp (c : Config) (ws : List Nat) (st : SimState) :
    (ws.foldl (fun s w => workerCompute c w s) st).wp = st.wp := by
  induction ws generalizing st with
  | nil => rfl
  | cons w ws ih => exact ih (workerCompute c w st)

lemma computeFold_curr_gen (c : Config) (ws : List Nat) (st : SimState) :
    (ws.foldl (fun s w => workerCompute c w s) st).curr_gen = st.curr_gen := by
  induction ws generalizing st with
  | nil => rfl
  | cons w ws ih => exact ih (workerCompute c w st)

lemma computeFold_break_flag (c : Config) (ws : List Nat) (st : SimState) :
    (ws.foldl (fun s w => workerCompute c w s) st).break_flag = st.break_flag := by
  induction ws generalizing st with
  | nil => rfl
  | cons w ws ih => exact ih (workerCompute c w st)

lemma computeFold_barrier_count (c : Config) (ws : List Nat) (st : SimState) :
    (ws.foldl (fun s w => workerCompute c w s) st).barrier_count = st.barrier_count := by
  induction ws generalizing st with
  | nil => rfl
  | cons w ws ih => exact ih (workerCompute c w st)

lemma computeFold_output (c : Config) (ws : List Nat) (st : SimState) :
    (ws.foldl (fun s w => workerCompute c w s) st).output = st.output := by
  induction ws generalizing st with
  | nil => rfl
  | cons w ws ih => exact ih (workerCompute c w st)

lemma computeFold_twp (c : Config) (ws : List Nat) (st : SimState) (i j : Nat) :
    (ws.foldl (fun s w => workerCompute c w s) st).twp i j
      = if ∃ w ∈ ws, inTile c w i j
        then life_rule (st.wp i j) (Count_nbhrs st.wp c.m c.n i j)
        else st.twp i j := by
  induction ws generalizing st with
  | nil => simp
  | cons w ws ih =>
    rw [List.foldl_cons, ih (workerCompute c w st)]
    by_cases h1 : ∃ w' ∈ ws, inTile c w' i j
    · have h2 : ∃ w' ∈ w :: ws, inTile c w' i j := by
        obtain ⟨u, hu, hin⟩ := h1
        exact ⟨u, List.mem_cons_of_mem _ hu, hin⟩
      rw [if_pos h1, if_pos h2]
      rfl
    · by_cases h2 : inTile c w i j
      · have h3 : ∃ w' ∈ w :: ws, inTile c w' i j := ⟨w, List.mem_cons_self w ws, h2⟩
        rw [if_neg h1, if_pos h3]
        show tileWrite c w st.wp st.twp i j = _
        simp only [tileWrite]
        rw [if_pos h2]
      · have h3 : ¬∃ w' ∈ w :: ws, inTile c w' i j := by
          rintro ⟨u, hu, hin⟩
          rcases List.mem_cons.mp hu with rfl | hu2
          · exact h2 hin
          · exact h1 ⟨u, hu2, hin⟩
        rw [if_neg h1, if_neg h3]
        show tileWrite c w st.wp st.twp i j = _
        simp only [tileWrite]
        rw [if_neg h2]

lemma computeFold_live (c : Config) (ws : List Nat) (st : SimState) :
    (ws.foldl (fun s w => workerCompute c w s) st).live_count
      = st.live_count + (ws.map (fun w => tileLive c w st.wp)).sum := by
  induction ws generalizing st with
  | nil => simp
  | cons w ws ih =>
    rw [List.foldl_cons, ih (workerCompute c w st), List.map_cons, List.sum_cons]
    dsimp only [workerCompute]
    omega

/-! ### Tile geometry: bounds, coverage and uniqueness -/

lemma inTile_lt (c : Config) (w i j : Nat) (hw : w < thread_count c)
    (h : inTile c w i j) :
    i < c.r * (c.m / c.r) ∧ j < c.s * (c.n / c.s) := by
  obtain ⟨h1, h2, h3, h4⟩ := h
  have hs : 0 < c.s := by
    rcases Nat.eq_zero_or_pos c.s with h0 | h0
    · rw [thread_count, h0, Nat.mul_zero] at hw; omega
    · exact h0
  have hdiv : w / c.s < c.r :=
    Nat.div_lt_of_lt_mul (by rw [Nat.mul_comm c.s c.r]; exact hw)
  have hmod : w % c.s < c.s := Nat.mod_lt w hs
  constructor
  · have e1 : my_last_row c w = (w / c.s + 1) * (c.m / c.r) := by
      rw [my_last_row, my_first_row]; ring
    have e2 : (w / c.s + 1) * (c.m / c.r) ≤ c.r * (c.m / c.r) :=
      Nat.mul_le_mul_right _ hdiv
    omega
  · have e1 : my_last_col c w = (w % c.s + 1) * (c.n / c.s) := by
      rw [my_last_col, my_first_col]; ring
    have e2 : (w % c.s + 1) * (c.n / c.s) ≤ c.s * (c.n / c.s) :=
      Nat.mul_le_mul_right _ hmod
    omega

lemma coverage (c : Config) (i j : Nat) :
    (∃ w ∈ List.range (thread_count c), inTile c w i j)
      ↔ i < c.r * (c.m / c.r) ∧ j < c.s * (c.n / c.s) := by
  constructor
  · rintro ⟨w, hw, hin⟩
    exact inTile_lt c w i j (List.mem_range.mp hw) hin
  · rintro ⟨hi, hj⟩
    have hq : 0 < c.m / c.r := by
      rcases Nat.eq_zero_or_pos (c.m / c.r) with h0 | h0
      · rw [h0, Nat.mul_zero] at hi; omega
      · exact h0
    have hp : 0 < c.n / c.s := by
      rcases Nat.eq_zero_or_pos (c.n / c.s) with h0 | h0
      · rw [h0, Nat.mul_zero] at hj; omega
      · exact h0
    have hu : i / (c.m / c.r) < c.r :=
      Nat.div_lt_of_lt_mul (by rw [Nat.mul_comm (c.m / c.r) c.r]; exact hi)
    have hv : j / (c.n / c.s) < c.s :=
      Nat.div_lt_of_lt_mul (by rw [Nat.mul_comm (c.n / c.s) c.s]; exact hj)
    have hs : 0 < c.s := Nat.lt_of_le_of_lt (Nat.zero_le (j / (c.n / c.s))) hv
    have hwdiv : (i / (c.m / c.r) * c.s + j / (c.n / c.s)) / c.s = i / (c.m / c.r) := by
      rw [Nat.mul_comm (i / (c.m / c.r)) c.s, Nat.mul_add_div hs, Nat.div_eq_of_lt hv]
      omega
    have hwmod : (i / (c.m / c.r) * c.s + j / (c.n / c.s)) % c.s = j / (c.n / c.s) := by
      rw [Nat.mul_comm (i / (c.m / c.r)) c.s, Nat.mul_add_mod, Nat.mod_eq_of_lt hv]
    refine ⟨i / (c.m / c.r) * c.s + j / (c.n / c.s), List.mem_range.mpr ?_, ?_, ?_, ?_, ?_⟩
    · have h2 : (i / (c.m / c.r) + 1) * c.s ≤ c.r * c.s := Nat.mul_le_mul_right _ hu
      have h3 : i / (c.m / c.r) * c.s + c.s = (i / (c.m / c.r) + 1) * c.s := by ring
      rw [thread_count]
      omega
    · rw [my_first_row, hwdiv]
      exact Nat.div_mul_le_self i (c.m / c.r)
    · rw [my_last_row, my_first_row, hwdiv]
      have h4 := Nat.div_add_mod i (c.m / c.r)
      have h5 := Nat.mod_lt i hq
      have h6 : (c.m / c.r) * (i / (c.m / c.r)) = i / (c.m / c.r) * (c.m / c.r) :=
        Nat.mul_comm _ _
      omega
    · rw [my_first_col, hwmod]
      exact Nat.div_mul_le_self j (c.n / c.s)
    · rw [my_last_col, my_first_col, hwmod]
      have h4 := Nat.div_add_mod j (c.n / c.s)
      have h5 := Nat.mod_lt j hp
      have h6 : (c.n / c.s) * (j / (c.n / c.s)) = j / (c.n / c.s) * (c.n / c.s) :=
        Nat.mul_comm _ _
      omega

lemma inTile_unique (c : Config) (w w' i j : Nat) (hw : w < thread_count c)
    (_hw' : w' < thread_count c) (h : inTile c w i j) (h' : inTile c w' i j) :
    w = w' := by
  obtain ⟨a1, a2, a3, a4⟩ := h
  obtain ⟨b1, b2, b3, b4⟩ := h'
  rw [my_last_row, my_first_row] at a2 b2
  rw [my_last_col, my_first_col] at a4 b4
  rw [my_first_row] at a1 b1
  rw [my_first_col] at a3 b3
  set q := c.m / c.r
  set p := c.n / c.s
  have hq : 0 < q := by
    rcases Nat.eq_zero_or_pos q with h0 | h0
    · rw [h0, Nat.mul_zero] at a1 a2; omega
    · exact h0
  have hp : 0 < p := by
    rcases Nat.eq_zero_or_pos p with h0 | h0
    · rw [h0, Nat.mul_zero] at a3 a4; omega
    · exact h0
  have hs : 0 < c.s := by
    rcases Nat.eq_zero_or_pos c.s with h0 | h0
    · rw [thread_count, h0, Nat.mul_zero] at hw; omega
    · exact h0
  have key : ∀ x : Nat, x * q ≤ i → i < x * q + q → x = i / q := by
    intro x l1 l2
    have g1 : x ≤ i / q := (Nat.le_div_iff_mul_le hq).mpr l1
    have g2 : i / q < x + 1 := by
      rw [Nat.div_lt_iff_lt_mul hq]
      have e : (x + 1) * q = x * q + q := by ring
      omega
    omega
  have key' : ∀ x : Nat, x * p ≤ j → j < x * p + p → x = j / p := by
    intro x l1 l2
    have g1 : x ≤ j / p := (Nat.le_div_iff_mul_le hp).mpr l1
    have g2 : j / p < x + 1 := by
      rw [Nat.div_lt_iff_lt_mul hp]
      have e : (x + 1) * p = x * p + p := by ring
      omega
    omega
  have e1 : w / c.s = i / q := key _ a1 a2
  have e1' : w' / c.s = i / q := key _ b1 b2
  have e2 : w % c.s = j / p := key' _ a3 a4
  have e2' : w' % c.s = j / p := key' _ b3 b4
  have d1 := Nat.div_add_mod w c.s
  have d2 := Nat.div_add_mod w' c.s
  have hcomm : c.s * (w / c.s) = c.s * (w' / c.s) := by rw [e1, e1']
  omega

/-! ### Reindexing sums over a block decomposition -/

lemma list_range_finset_sum (f : Nat → Nat) (k : Nat) :
    ((List.range k).map f).sum = Finset.sum (Finset.range k) f := by
  induction k with
  | zero => simp
  | succ t ht =>
    rw [Finset.sum_range_succ, List.range_succ, ← ht]
    rw [List.map_append]
    simp

lemma list_sum_swap (A B : Nat) (g : Nat → Nat → Nat) :
    ((List.range A).map (fun a => ((List.range B).map (fun b => g a b)).sum)).sum
      = ((List.range B).map (fun b => ((List.range A).map (fun a => g a b)).sum)).sum := by
  simp only [list_range_finset_sum]
  exact Finset.sum_comm

lemma sum_map_congr (l : List Nat) (f g : Nat → Nat) (h : ∀ x ∈ l, f x = g x) :
    (l.map f).sum = (l.map g).sum := by
  rw [List.map_congr_left h]

lemma list_sum_range_mul (f : Nat → Nat) (r q : Nat) :
    ((List.range (r * q)).map f).sum
      = ((List.range r).map (fun u =>
          ((List.range q).map (fun a => f (u * q + a))).sum)).sum := by
  induction r with
  | zero => simp
  | succ r ih =>
    have h : (r + 1) * q = r * q + q := by ring
    rw [h, List.range_add, List.map_append, List.sum_append, ih, List.range_succ,
      List.map_append, List.sum_append, List.map_map]
    rfl

lemma block_sum_eq (r s q p : Nat) (hs0 : 0 < s) (f : Nat → Nat → Nat) :
    ((List.range (r * s)).map (fun w =>
      ((List.range q).map (fun a => ((List.range p).map (fun b =>
        f (w / s * q + a) (w % s * p + b))).sum)).sum)).sum
    = ((List.range (r * q)).map (fun i =>
        ((List.range (s * p)).map (fun j => f i j)).sum)).sum := by
  trans ((List.range r).map (fun u => ((List.range s).map (fun v =>
      ((List.range q).map (fun a => ((List.range p).map (fun b =>
        f (u * q + a) (v * p + b))).sum)).sum)).sum)).sum
  · rw [list_sum_range_mul (fun w =>
      ((List.range q).map (fun a => ((List.range p).map (fun b =>
        f (w / s * q + a) (w % s * p + b))).sum)).sum) r s]
    apply sum_map_congr
    intro u hu
    apply sum_map_congr
    intro v hv
    show ((List.range q).map (fun a => ((List.range p).map (fun b =>
        f ((u * s + v) / s * q + a) ((u * s + v) % s * p + b))).sum)).sum = _
    have hv' := List.mem_range.mp hv
    have e1 : (u * s + v) / s = u := by
      rw [Nat.mul_comm u s, Nat.mul_add_div hs0, Nat.div_eq_of_lt hv']
      omega
    have e2 : (u * s + v) % s = v := by
      rw [Nat.mul_comm u s, Nat.mul_add_mod, Nat.mod_eq_of_lt hv']
    simp only [e1, e2]
  · rw [list_sum_range_mul (fun i =>
        ((List.range (s * p)).map (fun j => f i j)).sum) r q]
    apply sum_map_congr
    intro u hu
    trans ((List.range q).map (fun a => ((List.range s).map (fun v =>
        ((List.range p).map (fun b => f (u * q + a) (v * p + b))).sum)).sum)).sum
    · exact list_sum_swap s q (fun v a =>
        ((List.range p).map (fun b => f (u * q + a) (v * p + b))).sum)
    · apply sum_map_congr
      intro a ha
      exact (list_sum_range_mul (fun j => f (u * q + a) j) s p).symm

lemma tile_sum_eq (c : Config) (g : Grid) (hs0 : 0 < c.s) :
    ((List.range (thread_count c)).map (fun w => tileLive c w g)).sum
      = ((List.range (c.r * (c.m / c.r))).map (fun i =>
          ((List.range (c.s * (c.n / c.s))).map (fun j =>
            if life_rule (g i j) (Count_nbhrs g c.m c.n i j) = LIVE
            then 1 else 0)).sum)).sum :=
  block_sum_eq c.r c.s (c.m / c.r) (c.n / c.s) hs0
    (fun i j => if life_rule (g i j) (Count_nbhrs g c.m c.n i j) = LIVE then 1 else 0)

lemma computePhase_live (c : Config) (st : SimState) (hs0 : 0 < c.s) :
    (computePhase c st).live_count
      = st.live_count + ((List.range (c.r * (c.m / c.r))).map (fun i =>
          ((List.range (c.s * (c.n / c.s))).map (fun j =>
            if life_rule (st.wp i j) (Count_nbhrs st.wp c.m c.n i j) = LIVE
            then 1 else 0)).sum)).sum := by
  unfold computePhase
  rw [computeFold_live c (List.range (thread_count c)) st, tile_sum_eq c st.wp hs0]

lemma computePhase_twp_eq (c : Config) (st : SimState) (i j : Nat) :
    (computePhase c st).twp i j
      = if i < c.r * (c.m / c.r) ∧ j < c.s * (c.n / c.s)
        then life_rule (st.wp i j) (Count_nbhrs st.wp c.m c.n i j)
        else st.twp i j := by
  unfold computePhase
  rw [computeFold_twp]
  by_cases h : i < c.r * (c.m / c.r) ∧ j < c.s * (c.n / c.s)
  · rw [if_pos ((coverage c i j).mpr h), if_pos h]
  · rw [if_neg (fun hex => h ((coverage c i j).mp hex)), if_neg h]

/-! ### The barrier phase in closed form -/

lemma Barrier_not_last (c : Config) (st : SimState)
    (h : st.barrier_count + 1 ≠ thread_count c) :
    Barrier c st = { st with barrier_count := st.barrier_count + 1 } := by
  simp only [Barrier]
  rw [if_neg h]

lemma barrierFold_lt (c : Config) (k : Nat) (st : SimState)
    (h : st.barrier_count + k < thread_count c) :
    (List.range k).foldl (fun s _ => Barrier c s) st
      = { st with barrier_count := st.barrier_count + k } := by
  induction k with
  | zero => rfl
  | succ k ih =>
    rw [List.range_succ, List.foldl_append, ih (by omega)]
    show Barrier c { st with barrier_count := st.barrier_count + k } = _
    rw [Barrier_not_last c _
      (show st.barrier_count + k + 1 ≠ thread_count c by omega)]
    rfl

lemma barrierPhase_closed (c : Config) (st : SimState) (h0 : st.barrier_count = 0)
    (htc : 0 < thread_count c) :
    barrierPhase c st = if st.live_count = 0
      then { st with break_flag := 1, barrier_count := 0, live_count := 0 }
      else { st with
             wp := st.twp
             twp := st.wp
             curr_gen := st.curr_gen + 1
             output := st.output ++ [(st.curr_gen + 1, st.twp)]
             barrier_count := 0
             live_count := 0 } := by
  unfold barrierPhase
  have e : thread_count c = (thread_count c - 1) + 1 := by omega
  rw [e, List.range_succ, List.foldl_append,
    barrierFold_lt c (thread_count c - 1) st (by omega)]
  show Barrier c { st with barrier_count := st.barrier_count + (thread_count c - 1) } = _
  simp only [Barrier, Pointer_swap]
  rw [if_pos (show st.barrier_count + (thread_count c - 1) + 1 = thread_count c by omega)]

lemma genRound_closed (c : Config) (st : SimState) (h0 : st.barrier_count = 0)
    (htc : 0 < thread_count c) :
    genRound c st = if (computePhase c st).live_count = 0
      then { computePhase c st with break_flag := 1, barrier_count := 0, live_count := 0 }
      else { computePhase c st with
             wp := (computePhase c st).twp
             twp := (computePhase c st).wp
             curr_gen := (computePhase c st).curr_gen + 1
             output := (computePhase c st).output
               ++ [((computePhase c st).curr_gen + 1, (computePhase c st).twp)]
             barrier_count := 0
             live_count := 0 } := by
  have hb : (computePhase c st).barrier_count = 0 := by
    unfold computePhase
    rw [computeFold_barrier_count]
    exact h0
  unfold genRound
  rw [barrierPhase_closed c (computePhase c st) hb htc]

/-! ### Monotonicity of the termination flag -/

lemma Barrier_flag_mono (c : Config) (st : SimState) (h : st.break_flag = 1) :
    (Barrier c st).break_flag = 1 := by
  simp only [Barrier, Pointer_swap]
  split_ifs <;> first | rfl | exact h

lemma barrierFold_flag_mono (c : Config) (l : List Nat) (st : SimState)
    (h : st.break_flag = 1) :
    (l.foldl (fun s _ => Barrier c s) st).break_flag = 1 := by
  induction l generalizing st with
  | nil => exact h
  | cons x l ih => exact ih (Barrier c st) (Barrier_flag_mono c st h)

lemma genRound_flag_mono (c : Config) (st : SimState) (h : st.break_flag = 1) :
    (genRound c st).break_flag = 1 := by
  unfold genRound barrierPhase
  apply barrierFold_flag_mono
  unfold computePhase
  rw [computeFold_break_flag]
  exact h

/-! ### Claims -/

/-- C1: for every cell (i, j) of the worker's tile, the next-state written to
the next buffer is determined by the live-neighbor count of (i, j) in the
current buffer: count < 2 or count > 3 gives DEAD, count = 2 copies the
cell's current state, count = 3 gives ALIVE. -/
theorem claim_C1 (c : Config) (w i j : Nat) (wp twp : Grid)
    (hw : inTile c w i j) :
    (Count_nbhrs wp c.m c.n i j < 2 ∨ 3 < Count_nbhrs wp c.m c.n i j →
      tileWrite c w wp twp i j = DEAD)
    ∧ (Count_nbhrs wp c.m c.n i j = 2 →
      tileWrite c w wp twp i j = wp i j)
    ∧ (Count_nbhrs wp c.m c.n i j = 3 →
      tileWrite c w wp twp i j = LIVE) := by
  simp only [tileWrite]
  rw [if_pos hw]
  unfold life_rule
  refine ⟨?_, ?_, ?_⟩
  · intro h
    rw [if_pos h]
  · intro h
    rw [if_neg (by omega), if_pos h]
  · intro h
    rw [if_neg (by omega), if_neg (by omega)]

theorem claim_C1_witness :
    inTile ⟨1, 1, 3, 3, 1⟩ 0 1 1
    ∧ Count_nbhrs blockGrid 3 3 1 1 = 3
    ∧ tileWrite ⟨1, 1, 3, 3, 1⟩ 0 blockGrid deadGrid 1 1 = LIVE :=
  ⟨by decide, by decide,
    (claim_C1 ⟨1, 1, 3, 3, 1⟩ 0 1 1 blockGrid deadGrid (by decide)).2.2 (by decide)⟩

/-- C2: for m, n ≥ 3 and any cell (i, j) of the grid holding only the values
DEAD and LIVE, `Count_nbhrs` returns exactly the number of live cells among
the 8 toroidal neighbors of (i, j): the neighbor list has 8 entries, has no
duplicates (each neighbor counted exactly once), never contains (i, j)
itself, and the returned count is the number of its live entries. -/
theorem claim_C2 (g : Grid) (m n i j : Nat) (hm : 3 ≤ m) (hn : 3 ≤ n)
    (hi : i < m) (hj : j < n)
    (hb : ∀ a, a < m → ∀ b, b < n → g a b = DEAD ∨ g a b = LIVE) :
    Count_nbhrs g m n i j
      = (((neighborList m n i j).filter (fun p => g p.1 p.2 == LIVE)).length : Int)
    ∧ (neighborList m n i j).length = 8
    ∧ (neighborList m n i j).Nodup
    ∧ (i, j) ∉ neighborList m n i j := by
  refine ⟨?_, neighborList_length m n i j, neighborList_nodup m n i j hm hn hi hj,
    self_not_mem_neighborList m n i j hm hn hi hj⟩
  rw [Count_nbhrs_eq g m n i j hi hj]
  apply sum_map_eq_filter_length
  intro p hp
  obtain ⟨x, y⟩ := p
  obtain ⟨hx, hy⟩ := neighborList_mem_range m n i j (by omega) (by omega) x y hp
  exact hb x hx y hy

theorem claim_C2_witness :
    (3 : Nat) ≤ 3
    ∧ Count_nbhrs blockGrid 3 3 1 1
      = (((neighborList 3 3 1 1).filter
          (fun p => blockGrid p.1 p.2 == LIVE)).length : Int) :=
  ⟨by decide,
    (claim_C2 blockGrid 3 3 1 1 (by decide) (by decide) (by decide) (by decide)
      (by decide)).1⟩

/-- C3: at a barrier rendezvous the last (Nth) arriving worker performs
exactly one of two actions before broadcasting: if LiveCount = 0 it sets the
termination flag, leaves the buffers unswapped and emits no snapshot;
otherwise it swaps the buffers, increments the generation counter, emits the
new generation snapshot and resets LiveCount to 0.  In both cases the
arrival counter returns to 0, making the barrier reusable. -/
theorem claim_C3 (c : Config) (st : SimState)
    (hlast : st.barrier_count + 1 = thread_count c) :
    (st.live_count = 0 →
      Barrier c st
        = { st with break_flag := 1, barrier_count := 0, live_count := 0 })
    ∧ (st.live_count ≠ 0 →
      Barrier c st = { st with
        wp := st.twp
        twp := st.wp
        curr_gen := st.curr_gen + 1
        output := st.output ++ [(st.curr_gen + 1, st.twp)]
        barrier_count := 0
        live_count := 0 }) := by
  constructor
  · intro hl
    simp only [Barrier, Pointer_swap]
    rw [if_pos hlast, if_pos hl]
  · intro hl
    simp only [Barrier, Pointer_swap]
    rw [if_pos hlast, if_neg hl]

theorem claim_C3_witness :
    (initState blockGrid).barrier_count + 1 = thread_count ⟨1, 1, 3, 3, 5⟩
    ∧ Barrier ⟨1, 1, 3, 3, 5⟩ (initState blockGrid)
        = { initState blockGrid with
            break_flag := 1, barrier_count := 0, live_count := 0 } :=
  ⟨by decide,
    (claim_C3 ⟨1, 1, 3, 3, 5⟩ (initState blockGrid) (by decide)).1 (by decide)⟩

/-- C4: the termination flag, once set, is never cleared by a barrier
arrival nor by a whole generation round; and a worker that observes the flag
set right after a rendezvous terminates its loop instead of computing any
further generation. -/
theorem claim_C4 (c : Config) :
    (∀ st : SimState, st.break_flag = 1 → (Barrier c st).break_flag = 1)
    ∧ (∀ st : SimState, st.break_flag = 1 → (genRound c st).break_flag = 1)
    ∧ (∀ (fuel : Nat) (st : SimState), st.curr_gen < c.max_gens →
        (genRound c st).break_flag = 1 → runAux c (fuel + 1) st = genRound c st) := by
  refine ⟨Barrier_flag_mono c, genRound_flag_mono c, ?_⟩
  intro fuel st hgen hflag
  unfold runAux
  rw [if_pos hgen]
  show (if (genRound c st).break_flag = 1 then genRound c st
        else runAux c fuel (genRound c st)) = genRound c st
  rw [if_pos hflag]

theorem claim_C4_witness :
    (initState deadGrid).curr_gen < (⟨1, 1, 3, 3, 1⟩ : Config).max_gens
    ∧ (genRound ⟨1, 1, 3, 3, 1⟩ (initState deadGrid)).break_flag = 1
    ∧ runAux ⟨1, 1, 3, 3, 1⟩ 1 (initState deadGrid)
        = genRound ⟨1, 1, 3, 3, 1⟩ (initState deadGrid) := by
  have hf : (genRound ⟨1, 1, 3, 3, 1⟩ (initState deadGrid)).break_flag = 1 := by
    decide
  exact ⟨by decide, hf,
    (claim_C4 ⟨1, 1, 3, 3, 1⟩).2.2 0 (initState deadGrid) (by decide) hf⟩

/-- C5: with the thread grid dividing the world evenly, the value of
LiveCount when the last worker reaches the barrier equals the total number
of live cells in the just-computed next generation: it starts the round at
0, each worker adds 1 per live cell it writes (that is the definition of
the compute phase), and the earlier (non-last) barrier arrivals contribute
nothing. -/
theorem claim_C5 (c : Config) (st : SimState)
    (hrm : c.r ∣ c.m) (hsn : c.s ∣ c.n) (_hr0 : 0 < c.r) (hs0 : 0 < c.s)
    (hl : st.live_count = 0) :
    (computePhase c st).live_count = countLive c.m c.n (computePhase c st).twp
    ∧ (∀ st2 : SimState, st2.barrier_count + 1 ≠ thread_count c →
        (Barrier c st2).live_count = st2.live_count) := by
  constructor
  · have hm : c.r * (c.m / c.r) = c.m := Nat.mul_div_cancel' hrm
    have hn : c.s * (c.n / c.s) = c.n := Nat.mul_div_cancel' hsn
    rw [computePhase_live c st hs0, hl, Nat.zero_add]
    unfold countLive
    rw [hm, hn]
    apply sum_map_congr
    intro i hi
    apply sum_map_congr
    intro j hj
    have hij : (computePhase c st).twp i j
        = life_rule (st.wp i j) (Count_nbhrs st.wp c.m c.n i j) := by
      rw [computePhase_twp_eq]
      rw [if_pos ⟨by rw [hm]; exact List.mem_range.mp hi,
        by rw [hn]; exact List.mem_range.mp hj⟩]
    rw [hij]
  · intro st2 h2
    rw [Barrier_not_last c st2 h2]

theorem claim_C5_witness :
    (initState blockGrid).live_count = 0
    ∧ (computePhase ⟨1, 1, 3, 3, 5⟩ (initState blockGrid)).live_count
        = countLive 3 3 (computePhase ⟨1, 1, 3, 3, 5⟩ (initState blockGrid)).twp :=
  ⟨rfl,
    (claim_C5 ⟨1, 1, 3, 3, 5⟩ (initState blockGrid) (by decide) (by decide)
      (by decide) (by decide) rfl).1⟩

/-- C6: the tile of worker w is the half-open row interval
[(w / threadCols)·(m / threadRows), (w / threadCols)·(m / threadRows) + m / threadRows)
and the analogous column interval from w % threadCols and n / threadCols;
every tile of a valid worker lies inside the grid; and when threadRows
divides m and threadCols divides n, every grid cell lies in the tile of
exactly one worker (no gaps, no overlaps). -/
theorem claim_C6 (c : Config) (hrm : c.r ∣ c.m) (hsn : c.s ∣ c.n) :
    (∀ w, my_first_row c w = (w / c.s) * (c.m / c.r)
        ∧ my_last_row c w = (w / c.s) * (c.m / c.r) + c.m / c.r
        ∧ my_first_col c w = (w % c.s) * (c.n / c.s)
        ∧ my_last_col c w = (w % c.s) * (c.n / c.s) + c.n / c.s)
    ∧ (∀ w i j, w < thread_count c → inTile c w i j → i < c.m ∧ j < c.n)
    ∧ (∀ i j, i < c.m → j < c.n →
        ∃! w, w < thread_count c ∧ inTile c w i j) := by
  refine ⟨fun w => ⟨rfl, rfl, rfl, rfl⟩, ?_, ?_⟩
  · intro w i j hw hin
    obtain ⟨h1, h2⟩ := inTile_lt c w i j hw hin
    have hm' : c.r * (c.m / c.r) ≤ c.m := by
      rw [Nat.mul_comm]
      exact Nat.div_mul_le_self c.m c.r
    have hn' : c.s * (c.n / c.s) ≤ c.n := by
      rw [Nat.mul_comm]
      exact Nat.div_mul_le_self c.n c.s
    omega
  · intro i j hi hj
    have hm : c.r * (c.m / c.r) = c.m := Nat.mul_div_cancel' hrm
    have hn : c.s * (c.n / c.s) = c.n := Nat.mul_div_cancel' hsn
    obtain ⟨w, hwmem, hin⟩ := (coverage c i j).mpr ⟨by omega, by omega⟩
    refine ⟨w, ⟨List.mem_range.mp hwmem, hin⟩, ?_⟩
    rintro w' ⟨hw', hin'⟩
    exact inTile_unique c w' w i j hw' (List.mem_range.mp hwmem) hin' hin

theorem claim_C6_witness :
    (⟨2, 2, 4, 4, 1⟩ : Config).r ∣ (⟨2, 2, 4, 4, 1⟩ : Config).m
    ∧ ∃! w, w < thread_count ⟨2, 2, 4, 4, 1⟩ ∧ inTile ⟨2, 2, 4, 4, 1⟩ w 3 3 :=
  ⟨by decide,
    (claim_C6 ⟨2, 2, 4, 4, 1⟩ (by decide) (by decide)).2.2 3 3 (by decide) (by decide)⟩

/-- C7 counterexample: the configuration r = 1, s = 1, m = 2, n = 2 is a
configuration error per the spec (grid too small for toroidal wraparound),
yet the startup validation of main accepts it: only the argument count is
checked, so the error is not detected before worker threads are launched. -/
theorem claim_C7_counterexample :
    isConfigErrorSpec 1 1 2 2 = true ∧ startupRejects 7 1 1 2 2 = false := by
  decide

/-- C7 amended: the only configuration check performed at startup is the
argument count: main rejects (via Usage, which exits before any thread is
launched) exactly when argc ≠ 7; the parsed values of r, s, m and n are
never validated, so invalid thread-grid shapes and grids too small for
toroidal wraparound proceed to thread launch. -/
theorem claim_C7_amended (argc : Nat) (r s m n : Int) :
    startupRejects argc r s m n = true ↔ argc ≠ 7 := by
  unfold startupRejects
  simp [bne_iff_ne]

/-- C8 counterexample: a run that terminates by extinction and a run that
terminates by reaching the generation cap return the same value 0 to the
caller of main, which therefore carries neither the final generation index
nor the final grid; the two termination causes genuinely differ, as the
internal termination flag and generation counter show. -/
theorem claim_C8_counterexample :
    mainReturn ⟨1, 1, 3, 3, 1⟩ (run ⟨1, 1, 3, 3, 1⟩ (initState deadGrid))
      = mainReturn ⟨1, 1, 3, 3, 0⟩ (run ⟨1, 1, 3, 3, 0⟩ (initState blockGrid))
    ∧ (run ⟨1, 1, 3, 3, 1⟩ (initState deadGrid)).break_flag = 1
    ∧ (run ⟨1, 1, 3, 3, 0⟩ (initState blockGrid)).break_flag = 0
    ∧ (run ⟨1, 1, 3, 3, 0⟩ (initState blockGrid)).curr_gen
        = (⟨1, 1, 3, 3, 0⟩ : Config).max_gens :=
  ⟨rfl, by decide, rfl, rfl⟩

/-- C8 amended: main returns exit status 0 to the driver in every case; the
final generation index and grid reach the outside only through the printed
snapshots, and termination by extinction is distinguishable from
termination by the generation cap only in the program's internal state
(break_flag set versus curr_gen reaching the cap), not in the value
returned to the caller. -/
theorem claim_C8_amended :
    (∀ (c : Config) (st : SimState), mainReturn c st = 0)
    ∧ (run ⟨1, 1, 3, 3, 1⟩ (initState deadGrid)).break_flag = 1
    ∧ (run ⟨1, 1, 3, 3, 0⟩ (initState blockGrid)).break_flag = 0 :=
  ⟨fun _ _ => rfl, by decide, rfl⟩

/-- C10: when the thread grid leaves remainder rows/columns uncovered, an
uncovered cell of the next buffer is never written by any worker during a
generation; after the next swap the emitted snapshot and new current grid
hold the stale previous buffer contents at that cell, and after two swaps
the current grid holds at that cell exactly the value it held two
generations earlier; NeighborCounter reads that stale value whenever the
cell is a toroidal neighbor of the queried cell. -/
theorem claim_C10 (c : Config) (st : SimState) (i j : Nat)
    (hm3 : 3 ≤ c.m) (hn3 : 3 ≤ c.n)
    (hunc : c.r * (c.m / c.r) ≤ i ∨ c.s * (c.n / c.s) ≤ j)
    (hb : st.barrier_count = 0) (htc : 0 < thread_count c)
    (hl1 : (computePhase c st).live_count ≠ 0)
    (hl2 : (computePhase c (genRound c st)).live_count ≠ 0) :
    (computePhase c st).twp i j = st.twp i j
    ∧ (genRound c (genRound c st)).wp i j = st.wp i j
    ∧ (genRound c st).output = st.output
        ++ [(st.curr_gen + 1, (computePhase c st).twp)]
    ∧ (genRound c st).wp i j = st.twp i j
    ∧ (∀ (g : Grid) (i' j' : Nat) (v : Int), i' < c.m → j' < c.n →
        (i, j) ∈ neighborList c.m c.n i' j' →
        Count_nbhrs (updateCell g i j v) c.m c.n i' j'
          = Count_nbhrs g c.m c.n i' j' + (v - g i j)) := by
  have hnc : ¬(i < c.r * (c.m / c.r) ∧ j < c.s * (c.n / c.s)) := by omega
  have h1 : (computePhase c st).twp i j = st.twp i j := by
    rw [computePhase_twp_eq, if_neg hnc]
  have hr1 := genRound_closed c st hb htc
  rw [if_neg hl1] at hr1
  have hcpw : (computePhase c st).wp = st.wp := by
    unfold computePhase
    exact computeFold_wp c _ st
  have hcpo : (computePhase c st).output = st.output := by
    unfold computePhase
    exact computeFold_output c _ st
  have hcpg : (computePhase c st).curr_gen = st.curr_gen := by
    unfold computePhase
    exact computeFold_curr_gen c _ st
  have hr1bc : (genRound c st).barrier_count = 0 := by rw [hr1]
  have hr1wp : (genRound c st).wp = (computePhase c st).twp := by rw [hr1]
  have hr1twp : (genRound c st).twp = (computePhase c st).wp := by rw [hr1]
  have hr1out : (genRound c st).output
      = (computePhase c st).output
        ++ [((computePhase c st).curr_gen + 1, (computePhase c st).twp)] := by
    rw [hr1]
  have hr2 := genRound_closed c (genRound c st) hr1bc htc
  rw [if_neg hl2] at hr2
  have hr2wp : (genRound c (genRound c st)).wp
      = (computePhase c (genRound c st)).twp := by rw [hr2]
  have h2 : (computePhase c (genRound c st)).twp i j = (genRound c st).twp i j := by
    rw [computePhase_twp_eq, if_neg hnc]
  refine ⟨h1, ?_, ?_, ?_, ?_⟩
  · rw [hr2wp, h2, hr1twp, hcpw]
  · rw [hr1out, hcpo, hcpg]
  · rw [hr1wp, h1]
  · intro g i' j' v hi' hj' hmem
    exact Count_nbhrs_update g c.m c.n i j i' j' v hm3 hn3 hi' hj' hmem

theorem claim_C10_witness :
    ((computePhase ⟨2, 1, 3, 3, 5⟩ (initState blockGrid)).live_count ≠ 0)
    ∧ (genRound ⟨2, 1, 3, 3, 5⟩ (genRound ⟨2, 1, 3, 3, 5⟩ (initState blockGrid))).wp 2 2
        = (initState blockGrid).wp 2 2
    ∧ Count_nbhrs (updateCell blockGrid 2 2 5) 3 3 1 1
        = Count_nbhrs blockGrid 3 3 1 1 + (5 - blockGrid 2 2) := by
  have hl1 : (computePhase ⟨2, 1, 3, 3, 5⟩ (initState blockGrid)).live_count ≠ 0 := by
    decide
  have h := claim_C10 ⟨2, 1, 3, 3, 5⟩ (initState blockGrid) 2 2 (by decide) (by decide)
    (by decide) rfl (by decide) hl1 (by decide)
  exact ⟨hl1, h.2.1, h.2.2.2.2 blockGrid 1 1 5 (by decide) (by decide) (by decide)⟩

/-- C9 counterexample: with the same initial state (column 0 of a 3×3 world
alive, second buffer all dead) and the same cap of one generation, the
thread-grid shapes 1×1 and 2×1 print different generation-1 snapshots: the
2×1 shape covers only rows 0..1, so cell (2,1), which becomes alive under
the rule, is instead reported with the next buffer's stale contents. -/
theorem claim_C9_counterexample :
    snapAt (run ⟨1, 1, 3, 3, 1⟩ (initState colGrid)) 0 2 1 = some 1
    ∧ snapAt (run ⟨2, 1, 3, 3, 1⟩ (initState colGrid)) 0 2 1 = some 0 := by
  constructor <;> decide

lemma computePhase_eq_shape (c c' : Config) (st : SimState)
    (hm : c'.m = c.m) (hn : c'.n = c.n)
    (h1 : c.r ∣ c.m) (h2 : c.s ∣ c.n) (h4 : 0 < c.s)
    (h5 : c'.r ∣ c'.m) (h6 : c'.s ∣ c'.n) (h8 : 0 < c'.s) :
    computePhase c st = computePhase c' st := by
  have hmc : c.r * (c.m / c.r) = c.m := Nat.mul_div_cancel' h1
  have hnc : c.s * (c.n / c.s) = c.n := Nat.mul_div_cancel' h2
  have hmc' : c'.r * (c'.m / c'.r) = c'.m := Nat.mul_div_cancel' h5
  have hnc' : c'.s * (c'.n / c'.s) = c'.n := Nat.mul_div_cancel' h6
  refine SimState.ext ?_ ?_ ?_ ?_ ?_ ?_ ?_
  · show (computePhase c st).wp = (computePhase c' st).wp
    unfold computePhase
    rw [computeFold_wp, computeFold_wp]
  · show (computePhase c st).twp = (computePhase c' st).twp
    funext i j
    rw [computePhase_twp_eq, computePhase_twp_eq, hmc, hnc, hmc', hnc', hm, hn]
  · show (computePhase c st).curr_gen = (computePhase c' st).curr_gen
    unfold computePhase
    rw [computeFold_curr_gen, computeFold_curr_gen]
  · show (computePhase c st).live_count = (computePhase c' st).live_count
    rw [computePhase_live c st h4, computePhase_live c' st h8,
      hmc, hnc, hmc', hnc', hm, hn]
  · show (computePhase c st).break_flag = (computePhase c' st).break_flag
    unfold computePhase
    rw [computeFold_break_flag, computeFold_break_flag]
  · show (computePhase c st).barrier_count = (computePhase c' st).barrier_count
    unfold computePhase
    rw [computeFold_barrier_count, computeFold_barrier_count]
  · show (computePhase c st).output = (computePhase c' st).output
    unfold computePhase
    rw [computeFold_output, computeFold_output]

lemma genRound_bc (c : Config) (st : SimState) (hb : st.barrier_count = 0)
    (htc : 0 < thread_count c) : (genRound c st).barrier_count = 0 := by
  rw [genRound_closed c st hb htc]
  split_ifs <;> rfl

lemma genRound_eq_shape (c c' : Config) (st : SimState)
    (hm : c'.m = c.m) (hn : c'.n = c.n)
    (h1 : c.r ∣ c.m) (h2 : c.s ∣ c.n) (h3 : 0 < c.r) (h4 : 0 < c.s)
    (h5 : c'.r ∣ c'.m) (h6 : c'.s ∣ c'.n) (h7 : 0 < c'.r) (h8 : 0 < c'.s)
    (hb : st.barrier_count = 0) :
    genRound c st = genRound c' st := by
  have hcp := computePhase_eq_shape c c' st hm hn h1 h2 h4 h5 h6 h8
  have htc : 0 < thread_count c := Nat.mul_pos h3 h4
  have htc' : 0 < thread_count c' := Nat.mul_pos h7 h8
  rw [genRound_closed c st hb htc, genRound_closed c' st hb htc', hcp]

lemma runAux_eq_shape (c c' : Config)
    (hm : c'.m = c.m) (hn : c'.n = c.n) (hg : c'.max_gens = c.max_gens)
    (h1 : c.r ∣ c.m) (h2 : c.s ∣ c.n) (h3 : 0 < c.r) (h4 : 0 < c.s)
    (h5 : c'.r ∣ c'.m) (h6 : c'.s ∣ c'.n) (h7 : 0 < c'.r) (h8 : 0 < c'.s) :
    ∀ (fuel : Nat) (st : SimState), st.barrier_count = 0 →
      runAux c fuel st = runAux c' fuel st := by
  intro fuel
  induction fuel with
  | zero =>
    intro st _
    rfl
  | succ fuel ih =>
    intro st hb
    have hr := genRound_eq_shape c c' st hm hn h1 h2 h3 h4 h5 h6 h7 h8 hb
    unfold runAux
    rw [hg, hr]
    by_cases hcg : st.curr_gen < c.max_gens
    · rw [if_pos hcg, if_pos hcg]
      show (if (genRound c' st).break_flag = 1 then genRound c' st
            else runAux c fuel (genRound c' st))
          = (if (genRound c' st).break_flag = 1 then genRound c' st
            else runAux c' fuel (genRound c' st))
      by_cases hf : (genRound c' st).break_flag = 1
      · rw [if_pos hf, if_pos hf]
      · rw [if_neg hf, if_neg hf]
        exact ih (genRound c' st) (genRound_bc c' st hb (Nat.mul_pos h7 h8))
    · rw [if_neg hcg, if_neg hcg]

/-- C9 amended: runs are deterministic functions of the full input (initial
buffer pair, thread-grid shape, generation cap), so identical inputs give
identical results; and the run outcome is independent of the thread-grid
shape provided each shape divides the world evenly (threadRows ∣ m and
threadCols ∣ n, both positive).  For non-dividing shapes the outcome does
differ (see the counterexample), because uncovered remainder cells keep
stale buffer contents. -/
theorem claim_C9_amended (r s r' s' m n gmax : Nat) (st : SimState)
    (h1 : r ∣ m) (h2 : s ∣ n) (h3 : 0 < r) (h4 : 0 < s)
    (h5 : r' ∣ m) (h6 : s' ∣ n) (h7 : 0 < r') (h8 : 0 < s')
    (hb : st.barrier_count = 0) :
    run ⟨r, s, m, n, gmax⟩ st = run ⟨r, s, m, n, gmax⟩ st
    ∧ run ⟨r, s, m, n, gmax⟩ st = run ⟨r', s', m, n, gmax⟩ st := by
  refine ⟨rfl, ?_⟩
  unfold run
  exact runAux_eq_shape ⟨r, s, m, n, gmax⟩ ⟨r', s', m, n, gmax⟩ rfl rfl rfl
    h1 h2 h3 h4 h5 h6 h7 h8 gmax st hb

theorem claim_C9_amended_witness :
    (2 : Nat) ∣ 4
    ∧ run ⟨1, 1, 4, 4, 2⟩ (initState blockGrid)
        = run ⟨2, 2, 4, 4, 2⟩ (initState blockGrid) :=
  ⟨by decide,
    (claim_C9_amended 1 1 2 2 4 4 2 (initState blockGrid) (by decide) (by decide)
      (by decide) (by decide) (by decide) (by decide) (by decide) (by decide) rfl).2⟩
